import Mathlib

/-!
Shallow embedding of the reactive-UI reconciliation core (`src/view.rs`):
the `View`/`ViewState` pair, the type-erased adapter operations, and the
three scheduler phases (`build_views`, `rebuild_views`, `reattach_children`).

Machine state that the Rust code reaches through the ECS world is made
explicit: a world is a record of per-entity component lookups, and the
dynamically dispatched view callbacks (cleanups, adapter rebuild,
adapter attach) are passed in as function parameters.  Panicking lookups
(`unwrap`) are modelled by `Option`: `none` is an aborted pass.
-/

/-- Modelled from the spec: `NodeSpan` (its source file is not part of the
staged sources) — zero, one, or many output node ids produced by a view. -/
inductive NodeSpan where
  | Empty : NodeSpan
  | Single : Nat → NodeSpan
  | Multiple : List Nat → NodeSpan
deriving DecidableEq, Repr

/-- The `View` trait of `view.rs`: pure behavior over an external state `σ`.
The world/context the Rust methods mutate through `&mut World` / `Cx` is the
abstract payload `γ`, threaded state-passing style.  `build` returns the
fresh state, `rebuild` returns the "output changed" flag and the updated
state, `attach_children` likewise, `raze` tears down. -/
structure View (σ γ : Type) where
  nodes : γ → σ → NodeSpan
  build : γ → σ × γ
  rebuild : γ → σ → Bool × σ × γ
  attach_children : γ → σ → Bool × σ × γ
  raze : γ → σ → σ × γ

/-- `ViewState<V>`: a view paired with its optional built state
(`state = none` before the first build). -/
structure ViewState (σ γ : Type) where
  view : View σ γ
  state : Option σ

/-- `ViewStateCell::new`: a freshly attached view has no built state yet. -/
def ViewState.new (v : View σ γ) : ViewState σ γ :=
  { view := v, state := none }

/-- `ViewState::rebuild`: delegate to the view's `rebuild` when a state
exists; otherwise perform the first `build`, store the state, and report
`true`. -/
def ViewState.rebuild (vs : ViewState σ γ) (cx : γ) : Bool × ViewState σ γ × γ :=
  match vs.state with
  | some s =>
    let r := vs.view.rebuild cx s
    (r.1, { vs with state := some r.2.1 }, r.2.2)
  | none =>
    let r := vs.view.build cx
    (true, { vs with state := some r.1 }, r.2)

/-- `ViewState::raze`: tear down only when a built state exists. -/
def ViewState.raze (vs : ViewState σ γ) (world : γ) : ViewState σ γ × γ :=
  match vs.state with
  | some s =>
    let r := vs.view.raze world s
    ({ vs with state := some r.1 }, r.2)
  | none => (vs, world)

/-- `ViewState::attach_children`: delegate when built, else `false`. -/
def ViewState.attach_children (vs : ViewState σ γ) (world : γ) :
    Bool × ViewState σ γ × γ :=
  match vs.state with
  | some s =>
    let r := vs.view.attach_children world s
    (r.1, { vs with state := some r.2.1 }, r.2.2)
  | none => (false, vs, world)

/-- The world as the type-erased adapter sees it: per-entity optional
`ViewStateCell` data plus the abstract payload the views read and write. -/
structure AWorld (σ γ : Type) where
  cells : Nat → Option (ViewState σ γ)
  payload : γ

/-- Replace the cell attached to entity `e`. -/
def AWorld.setCell (w : AWorld σ γ) (e : Nat) (c : Option (ViewState σ γ)) :
    AWorld σ γ :=
  { w with cells := fun x => if x = e then c else w.cells x }

namespace ViewAdapter

/-- `AnyViewAdapter::nodes` for `ViewAdapter<V>`: missing cell or unbuilt
state degrade to `Empty`. -/
def nodes (w : AWorld σ γ) (e : Nat) : NodeSpan :=
  match w.cells e with
  | some vs =>
    match vs.state with
    | some s => vs.view.nodes w.payload s
    | none => NodeSpan.Empty
  | none => NodeSpan.Empty

/-- `AnyViewAdapter::rebuild` for `ViewAdapter<V>`: missing cell degrades to
`false`, otherwise delegate to `ViewState::rebuild` and store the mutated
state back in the shared cell. -/
def rebuild (w : AWorld σ γ) (e : Nat) : Bool × AWorld σ γ :=
  match w.cells e with
  | some vs =>
    let r := vs.rebuild w.payload
    (r.1, { w.setCell e (some r.2.1) with payload := r.2.2 })
  | none => (false, w)

/-- `AnyViewAdapter::raze` for `ViewAdapter<V>`: `take` the cell out of the
entity first (so it is gone afterwards), then raze the taken state; a
missing cell is a no-op. -/
def raze (w : AWorld σ γ) (e : Nat) : AWorld σ γ :=
  match w.cells e with
  | some vs =>
    let w1 := w.setCell e none
    let r := ViewState.raze vs w1.payload
    { w1 with payload := r.2 }
  | none => w

/-- `AnyViewAdapter::attach_children` for `ViewAdapter<V>`: missing cell
degrades to `false`. -/
def attach_children (w : AWorld σ γ) (e : Nat) : Bool × AWorld σ γ :=
  match w.cells e with
  | some vs =>
    let r := vs.attach_children w.payload
    (r.1, { w.setCell e (some r.2.1) with payload := r.2.2 })
  | none => (false, w)

end ViewAdapter

/-- One type-erased call against a `ViewState` (the payload argument the
caller supplies is recorded with the operation). -/
inductive VOp (γ : Type) where
  | rebuildOp : γ → VOp γ
  | razeOp : γ → VOp γ
  | attachOp : γ → VOp γ

/-- Apply an operation to a `ViewState`, keeping only the state evolution. -/
def ViewState.applyOp (vs : ViewState σ γ) : VOp γ → ViewState σ γ
  | .rebuildOp cx => (vs.rebuild cx).2.1
  | .razeOp g => (vs.raze g).1
  | .attachOp g => (vs.attach_children g).2.1

/-- Run a sequence of operations against a `ViewState`. -/
def ViewState.runOps (vs : ViewState σ γ) : List (VOp γ) → ViewState σ γ
  | [] => vs
  | op :: rest => (vs.applyOp op).runOps rest

/-- How many steps of the sequence take the build branch of
`ViewState::rebuild` (the only call site of `View::build`). -/
def ViewState.buildCount (vs : ViewState σ γ) : List (VOp γ) → Nat
  | [] => 0
  | op :: rest =>
    (match op, vs.state with
      | VOp.rebuildOp _, none => 1
      | _, _ => 0) + (vs.applyOp op).buildCount rest

/-- Modelled from the spec: `TrackingScope` (its source file is not part of
the staged sources) — the stamped tick, the recorded dependency handles, and
the ordered cleanup actions.  Cleanups are opaque tokens; the scheduler
interprets them through an explicit cleanup semantics. -/
structure TrackingScope where
  tick : Nat
  deps : List Nat
  cleanups : List Nat
deriving DecidableEq, Repr

/-- `TrackingScope::new`: a fresh scope stamped with the given tick. -/
def TrackingScope.new (tick : Nat) : TrackingScope :=
  { tick := tick, deps := [], cleanups := [] }

/-- Modelled from the spec: `TrackingScope::dependencies_changed` — at least
one recorded dependency handle has a current version exceeding the scope's
stamped tick.  `ver` is the world's per-dependency version lookup. -/
def TrackingScope.dependencies_changed (sc : TrackingScope) (ver : Nat → Nat) : Bool :=
  sc.deps.any fun d => sc.tick < ver d

/-- `TrackingScope::take_deps`: replace this scope's dependencies and
cleanups with the next scope's. -/
def TrackingScope.take_deps (sc next : TrackingScope) : TrackingScope :=
  { sc with deps := next.deps, cleanups := next.cleanups }

/-- The ECS world as the scheduler phases see it: the entity list, the
per-entity components the scheduler reads and writes (`TrackingScope`,
`ViewThunk` presence, the `OutputChanged` marker, `Parent`, the
fresh-`ViewRoot` flag), the per-dependency version counters, and an
abstract payload for everything the view callbacks may otherwise touch. -/
structure SWorld (υ : Type) where
  ents : List Nat
  scope : Nat → Option TrackingScope
  hasThunk : Nat → Bool
  outputChanged : Nat → Bool
  parent : Nat → Option Nat
  rootAdded : Nat → Bool
  depVersion : Nat → Nat
  user : υ

/-- Replace entity `e`'s tracking scope. -/
def SWorld.setScope (w : SWorld υ) (e : Nat) (sc : Option TrackingScope) :
    SWorld υ :=
  { w with scope := fun x => if x = e then sc else w.scope x }

/-- Set or clear entity `e`'s `OutputChanged` marker. -/
def SWorld.setOutputChanged (w : SWorld υ) (e : Nat) (b : Bool) : SWorld υ :=
  { w with outputChanged := fun x => if x = e then b else w.outputChanged x }

/-- The query `(Entity, &mut TrackingScope, &ViewThunk)` at one entity:
`some` when the entity exists, carries a thunk and a scope. -/
def SWorld.getTracked (w : SWorld υ) (e : Nat) : Option TrackingScope :=
  if w.ents.contains e && w.hasThunk e then w.scope e else none

/-- The dynamically dispatched cleanup callbacks: token to world action. -/
def CleanupSem (υ : Type) : Type := Nat → SWorld υ → SWorld υ

/-- The type-erased `ViewThunk` rebuild: entity, world, and the fresh scope
being populated; returns the "output changed" flag, the populated scope and
the mutated world. -/
def RebuildFn (υ : Type) : Type :=
  Nat → SWorld υ → TrackingScope → Bool × TrackingScope × SWorld υ

/-- The type-erased `ViewThunk` attach-children call. -/
def AttachFn (υ : Type) : Type := Nat → SWorld υ → Bool × SWorld υ

/-- Scheduler-level instrumentation: the observable calls the rebuild phase
makes on behalf of an entity. -/
inductive SEvent where
  | cleanupRun : Nat → Nat → SEvent
  | rebuildCall : Nat → SEvent
deriving DecidableEq, Repr

/-- The entity an event belongs to. -/
def SEvent.ent : SEvent → Nat
  | .cleanupRun e _ => e
  | .rebuildCall e => e

/-- The selection scan of `rebuild_views`: every entity matching
`(Entity, &mut TrackingScope, &ViewThunk)` whose scope reports a dependency
changed. -/
def changedEntities (w : SWorld υ) : List Nat :=
  w.ents.filter fun e =>
    match w.getTracked e with
    | some sc => sc.dependencies_changed w.depVersion
    | none => false

/-- Run the drained cleanup tokens in registration order, recording one
event per cleanup. -/
def runCleanups (cs : CleanupSem υ) (e : Nat) :
    List Nat → SWorld υ → SWorld υ × List SEvent
  | [], w => (w, [])
  | c :: rest, w =>
    let r := runCleanups cs e rest (cs c w)
    (r.1, SEvent.cleanupRun e c :: r.2)

/-- The body of the `rebuild_views` loop for one selected entity: look the
scope up (`unwrap`), `mem::take` and run its cleanups, look the thunk up
again (`unwrap`), run the adapter rebuild with a brand-new scope, insert
`OutputChanged` when it reports changed, then swap the new scope's deps and
cleanups in (`take_deps`) and advance the stamped tick.  `none` models a
panicking `unwrap`. -/
def processNode (cs : CleanupSem υ) (rf : RebuildFn υ) (thisRun : Nat)
    (w : SWorld υ) (e : Nat) : Option (SWorld υ) × List SEvent :=
  match w.getTracked e with
  | none => (none, [])
  | some sc =>
    let w1 := w.setScope e (some { sc with cleanups := [] })
    let r1 := runCleanups cs e sc.cleanups w1
    match r1.1.getTracked e with
    | none => (none, r1.2)
    | some _ =>
      let r2 := rf e r1.1 (TrackingScope.new thisRun)
      let w3 := if r2.1 then r2.2.2.setOutputChanged e true else r2.2.2
      match w3.getTracked e with
      | none => (none, r1.2 ++ [SEvent.rebuildCall e])
      | some sc2 =>
        (some (w3.setScope e (some { sc2.take_deps r2.2.1 with tick := thisRun })),
          r1.2 ++ [SEvent.rebuildCall e])

/-- Process the selected entities in order; a panic aborts the pass. -/
def processList (cs : CleanupSem υ) (rf : RebuildFn υ) (thisRun : Nat) :
    List Nat → SWorld υ → Option (SWorld υ) × List SEvent
  | [], w => (some w, [])
  | e :: rest, w =>
    let r := processNode cs rf thisRun w e
    match r.1 with
    | none => (none, r.2)
    | some w' =>
      let rr := processList cs rf thisRun rest w'
      (rr.1, r.2 ++ rr.2)

/-- `rebuild_views`: scan for entities whose tracked dependencies changed,
then process each in turn. -/
def rebuild_views (cs : CleanupSem υ) (rf : RebuildFn υ) (thisRun : Nat)
    (w : SWorld υ) : Option (SWorld υ) × List SEvent :=
  processList cs rf thisRun (changedEntities w) w

/-- The per-root body of `build_views`: re-fetch the root (skipping it
gracefully when the query no longer matches), run the adapter rebuild with
a fresh scope stamped with the current tick — discarding its returned
flag — and attach the populated scope to the root. -/
def buildList (rf : RebuildFn υ) (tick : Nat) :
    List Nat → SWorld υ → SWorld υ
  | [], w => w
  | e :: rest, w =>
    if w.ents.contains e && w.rootAdded e && w.hasThunk e then
      let r := rf e w (TrackingScope.new tick)
      buildList rf tick rest (r.2.2.setScope e (some r.2.1))
    else
      buildList rf tick rest w

/-- `build_views`: the initial build of freshly added roots. -/
def build_views (rf : RebuildFn υ) (tick : Nat) (w : SWorld υ) : SWorld υ :=
  buildList rf tick (w.ents.filter fun e => w.rootAdded e && w.hasThunk e) w

/-- Insert into the deduplicating work set (the `HashSet` is modelled as a
duplicate-free list with a fixed iteration order). -/
def pushSet (q : List Nat) (e : Nat) : List Nat :=
  if q.contains e then q else q ++ [e]

/-- The entities carrying the `OutputChanged` marker. -/
def markedViews (w : SWorld υ) : List Nat :=
  w.ents.filter fun e => w.outputChanged e

/-- Seed the reattach work set with the parent of every marked entity. -/
def seedQueue (w : SWorld υ) : List Nat :=
  (markedViews w).foldl
    (fun q e =>
      match w.parent e with
      | some p => pushSet q p
      | none => q)
    []

/-- Clear the single-tick `OutputChanged` markers. -/
def clearMarks (w : SWorld υ) : SWorld υ :=
  (markedViews w).foldl (fun acc e => acc.setOutputChanged e false) w

/-- One iteration of the reattach loop on the popped entity `e`: when the
entity carries a thunk, call its adapter's `attach_children`; when that
reports `true`, enqueue the entity's parent. -/
def reattachStep (af : AttachFn υ) (w : SWorld υ) (e : Nat) (rest : List Nat) :
    SWorld υ × List Nat :=
  if w.ents.contains e && w.hasThunk e then
    if (af e w).1 then
      match (af e w).2.parent e with
      | some p => ((af e w).2, pushSet rest p)
      | none => ((af e w).2, rest)
    else ((af e w).2, rest)
  else (w, rest)

/-- The reattach work loop, fuelled (the Rust `while` has no bound; `none`
means the fuel ran out before the work set drained). -/
def reattachLoop (af : AttachFn υ) : Nat → List Nat → SWorld υ → Option (SWorld υ)
  | 0, q, w => if q.isEmpty then some w else none
  | _ + 1, [], w => some w
  | fuel + 1, e :: rest, w =>
    let r := reattachStep af w e rest
    reattachLoop af fuel r.2 r.1

/-- `reattach_children`: seed the work set from the marked entities' parents,
clear the marks, then drain the work set. -/
def reattach_children (af : AttachFn υ) (fuel : Nat) (w : SWorld υ) :
    Option (SWorld υ) :=
  reattachLoop af fuel (seedQueue w) (clearMarks w)

/-- The termination measure of the reattach loop: each pending entity
contributes its depth plus one. -/
def measureSum (μ : Nat → Nat) (q : List Nat) : Nat :=
  (q.map fun x => μ x + 1).sum

section AdapterLemmas

variable {σ γ : Type}

theorem applyOp_state_isSome (vs : ViewState σ γ) (op : VOp γ)
    (h : vs.state.isSome = true) : (vs.applyOp op).state.isSome = true := by
  cases hs : vs.state with
  | none => rw [hs] at h; simp at h
  | some s =>
    cases op <;>
      simp [ViewState.applyOp, ViewState.rebuild, ViewState.raze,
        ViewState.attach_children, hs]

theorem runOps_state_isSome (ops : List (VOp γ)) (vs : ViewState σ γ)
    (h : vs.state.isSome = true) : (vs.runOps ops).state.isSome = true := by
  induction ops generalizing vs with
  | nil => exact h
  | cons op rest ih => exact ih _ (applyOp_state_isSome vs op h)

theorem buildCount_eq_zero_of_isSome (ops : List (VOp γ)) (vs : ViewState σ γ)
    (h : vs.state.isSome = true) : vs.buildCount ops = 0 := by
  induction ops generalizing vs with
  | nil => rfl
  | cons op rest ih =>
    obtain ⟨s, hs⟩ := Option.isSome_iff_exists.mp h
    cases op <;>
      simp [ViewState.buildCount, hs, ih _ (applyOp_state_isSome vs _ h)]

theorem buildCount_le_one (ops : List (VOp γ)) (vs : ViewState σ γ) :
    vs.buildCount ops ≤ 1 := by
  induction ops generalizing vs with
  | nil => simp [ViewState.buildCount]
  | cons op rest ih =>
    cases hs : vs.state with
    | some s =>
      have h0 := buildCount_eq_zero_of_isSome (op :: rest) vs (by simp [hs])
      omega
    | none =>
      cases op with
      | rebuildOp cx =>
        have h1 : ((vs.applyOp (VOp.rebuildOp cx)).buildCount rest) = 0 := by
          refine buildCount_eq_zero_of_isSome rest _ ?_
          simp [ViewState.applyOp, ViewState.rebuild, hs]
        simp [ViewState.buildCount, hs, h1]
      | razeOp g =>
        have h1 : vs.applyOp (VOp.razeOp g) = vs := by
          simp [ViewState.applyOp, ViewState.raze, hs]
        simpa [ViewState.buildCount, hs, h1] using ih vs
      | attachOp g =>
        have h1 : vs.applyOp (VOp.attachOp g) = vs := by
          simp [ViewState.applyOp, ViewState.attach_children, hs]
        simpa [ViewState.buildCount, hs, h1] using ih vs

end AdapterLemmas

/-- A concrete view whose output span is always `Empty` (its state is the
unit value), used to evaluate the theorems below on explicit inputs. -/
def emptyish : View Unit Unit :=
  { nodes := fun _ _ => NodeSpan.Empty
    build := fun g => ((), g)
    rebuild := fun g s => (false, s, g)
    attach_children := fun g s => (false, s, g)
    raze := fun g s => (s, g) }

/-- A never-built instance of `emptyish`. -/
def vs0 : ViewState Unit Unit := ViewState.new emptyish

/-- An already-built instance of `emptyish`. -/
def vs1 : ViewState Unit Unit := { view := emptyish, state := some () }

/-- An adapter-level world with no cell attached anywhere. -/
def aw0 : AWorld Unit Unit := { cells := fun _ => none, payload := () }

/-- An adapter-level world with a built cell on entity 0. -/
def aw1 : AWorld Unit Unit :=
  { cells := fun x => if x = 0 then some vs1 else none, payload := () }

/-- C1: a `ViewState` whose `state` is `none` (never built) answers `rebuild`
by running the view's `build` instead of its `rebuild`, stores the resulting
state (making it `some`), and reports `true` — whatever the view is, so in
particular even when the built view's `NodeSpan` is `Empty`. -/
theorem viewState_first_rebuild_is_build {σ γ : Type} (vs : ViewState σ γ)
    (cx : γ) (h : vs.state = none) :
    vs.rebuild cx =
      (true, { vs with state := some (vs.view.build cx).1 }, (vs.view.build cx).2) := by
  simp [ViewState.rebuild, h]

/-- C1 witness: the never-built `emptyish` instance — whose `nodes` output is
`Empty` — rebuilds by building, stores `some ()`, and reports `true`. -/
theorem viewState_first_rebuild_is_build_w :
    vs0.state = none ∧ vs0.rebuild () = (true, { vs0 with state := some () }, ()) :=
  ⟨rfl, viewState_first_rebuild_is_build vs0 () rfl⟩

/-- C2: when the expected `ViewStateCell` data is absent on an entity, each
type-erased adapter operation degrades to its neutral result: `nodes` returns
`Empty`, `rebuild` returns `false`, `attach_children` returns `false`, and
`raze` is a no-op. -/
theorem adapter_missing_data_degrades {σ γ : Type} (w : AWorld σ γ) (e : Nat)
    (h : w.cells e = none) :
    ViewAdapter.nodes w e = NodeSpan.Empty ∧
      ViewAdapter.rebuild w e = (false, w) ∧
      ViewAdapter.attach_children w e = (false, w) ∧
      ViewAdapter.raze w e = w := by
  refine ⟨?_, ?_, ?_, ?_⟩ <;>
    simp [ViewAdapter.nodes, ViewAdapter.rebuild, ViewAdapter.attach_children,
      ViewAdapter.raze, h]

/-- C2 witness: the four degradations evaluated on a world with no cells. -/
theorem adapter_missing_data_degrades_w :
    ViewAdapter.nodes aw0 3 = NodeSpan.Empty ∧
      ViewAdapter.rebuild aw0 3 = (false, aw0) ∧
      ViewAdapter.attach_children aw0 3 = (false, aw0) ∧
      ViewAdapter.raze aw0 3 = aw0 :=
  adapter_missing_data_degrades aw0 3 rfl

/-- C8: razing a `ViewState` whose state is `none` is a safe no-op that
invokes no teardown (the world is untouched, whatever the view's `raze`
would do); and the type-erased `raze` is idempotent — razing an entity a
second time finds the cell already taken and does nothing. -/
theorem raze_noop_and_idempotent {σ γ : Type} :
    (∀ (vs : ViewState σ γ) (g : γ), vs.state = none → vs.raze g = (vs, g)) ∧
      ∀ (w : AWorld σ γ) (e : Nat),
        ViewAdapter.raze (ViewAdapter.raze w e) e = ViewAdapter.raze w e := by
  constructor
  · intro vs g h
    simp [ViewState.raze, h]
  · intro w e
    cases h : w.cells e with
    | none => simp [ViewAdapter.raze, h]
    | some vs => simp [ViewAdapter.raze, h, AWorld.setCell]

/-- C8 witness: razing the never-built instance changes nothing, and razing
entity 0 of the built world twice equals razing it once. -/
theorem raze_noop_and_idempotent_w :
    vs0.raze () = (vs0, ()) ∧
      ViewAdapter.raze (ViewAdapter.raze aw1 0) 0 = ViewAdapter.raze aw1 0 :=
  ⟨raze_noop_and_idempotent.1 vs0 () rfl, raze_noop_and_idempotent.2 aw1 0⟩

/-- C9: over any sequence of type-erased operations, a `ViewState`'s `state`
never goes back from `some` to `none` (so it flips from `none` to `some` at
most once), and the build branch of `ViewState::rebuild` — the only call
site of `View::build` — is taken at most once in the instance's lifetime. -/
theorem viewState_build_at_most_once {σ γ : Type} (vs : ViewState σ γ)
    (ops : List (VOp γ)) :
    (vs.state.isSome = true → (vs.runOps ops).state.isSome = true) ∧
      vs.buildCount ops ≤ 1 :=
  ⟨runOps_state_isSome ops vs, buildCount_le_one ops vs⟩

/-- C9 witness: a built instance stays built across a rebuild, a raze and an
attach, and a never-built instance builds exactly once across two rebuilds. -/
theorem viewState_build_at_most_once_w :
    (vs1.runOps [VOp.rebuildOp (), VOp.razeOp (), VOp.attachOp ()]).state.isSome = true ∧
      vs0.buildCount [VOp.rebuildOp (), VOp.rebuildOp ()] ≤ 1 :=
  ⟨(viewState_build_at_most_once vs1 [VOp.rebuildOp (), VOp.razeOp (), VOp.attachOp ()]).1 rfl,
    (viewState_build_at_most_once vs0 [VOp.rebuildOp (), VOp.rebuildOp ()]).2⟩

section SchedulerLemmas

variable {υ : Type}

theorem runCleanups_trace (cs : CleanupSem υ) (e : Nat) (l : List Nat)
    (w : SWorld υ) :
    (runCleanups cs e l w).2 = l.map fun c => SEvent.cleanupRun e c := by
  induction l generalizing w with
  | nil => rfl
  | cons c rest ih => simp [runCleanups, ih]

theorem processNode_success_trace (cs : CleanupSem υ) (rf : RebuildFn υ)
    (t : Nat) (w : SWorld υ) (e : Nat)
    (h : (processNode cs rf t w e).1.isSome = true) :
    ∃ sc, w.getTracked e = some sc ∧
      (processNode cs rf t w e).2 =
        (sc.cleanups.map fun c => SEvent.cleanupRun e c) ++ [SEvent.rebuildCall e] := by
  cases h1 : w.getTracked e with
  | none => simp [processNode, h1] at h
  | some sc =>
    refine ⟨sc, rfl, ?_⟩
    have htr := runCleanups_trace cs e sc.cleanups
      (w.setScope e (some { sc with cleanups := [] }))
    simp only [processNode, h1] at h ⊢
    cases h2 : (runCleanups cs e sc.cleanups
        (w.setScope e (some { sc with cleanups := [] }))).1.getTracked e with
    | none => simp [h2] at h
    | some sc1 =>
      simp only [h2] at h ⊢
      split <;> simp [htr]

theorem processNode_trace_ent (cs : CleanupSem υ) (rf : RebuildFn υ)
    (t : Nat) (w : SWorld υ) (e : Nat) (ev : SEvent)
    (h : ev ∈ (processNode cs rf t w e).2) : ev.ent = e := by
  cases h1 : w.getTracked e with
  | none => simp [processNode, h1] at h
  | some sc =>
    have htr := runCleanups_trace cs e sc.cleanups
      (w.setScope e (some { sc with cleanups := [] }))
    simp only [processNode, h1] at h
    cases h2 : (runCleanups cs e sc.cleanups
        (w.setScope e (some { sc with cleanups := [] }))).1.getTracked e with
    | none =>
      simp only [h2, htr, List.mem_map] at h
      obtain ⟨c, _, rfl⟩ := h
      rfl
    | some sc1 =>
      simp only [h2] at h
      have h3 : ev ∈ (runCleanups cs e sc.cleanups
          (w.setScope e (some { sc with cleanups := [] }))).2 ++ [SEvent.rebuildCall e] := by
        split at h <;> exact h
      rw [htr] at h3
      rcases List.mem_append.mp h3 with h4 | h4
      · obtain ⟨c, _, rfl⟩ := List.mem_map.mp h4
        rfl
      · rw [List.mem_singleton.mp h4]
        rfl

theorem processList_success_step (cs : CleanupSem υ) (rf : RebuildFn υ)
    (t : Nat) (e : Nat) (rest : List Nat) (w : SWorld υ)
    (h : (processList cs rf t (e :: rest) w).1.isSome = true) :
    ∃ w', processNode cs rf t w e = (some w', (processNode cs rf t w e).2) ∧
      (processList cs rf t rest w').1.isSome = true ∧
      (processList cs rf t (e :: rest) w).2 =
        (processNode cs rf t w e).2 ++ (processList cs rf t rest w').2 := by
  cases hp : (processNode cs rf t w e).1 with
  | none => simp [processList, hp] at h
  | some w' =>
    refine ⟨w', ?_, ?_, ?_⟩
    · rw [← hp]
    · simpa [processList, hp] using h
    · simp [processList, hp]

theorem processList_mem_rebuildCall (cs : CleanupSem υ) (rf : RebuildFn υ)
    (t : Nat) (l : List Nat) (w : SWorld υ) (e : Nat)
    (hs : (processList cs rf t l w).1.isSome = true) (he : e ∈ l) :
    SEvent.rebuildCall e ∈ (processList cs rf t l w).2 := by
  induction l generalizing w with
  | nil => cases he
  | cons e' rest ih =>
    obtain ⟨w', hp, hrest, htr⟩ := processList_success_step cs rf t e' rest w hs
    rw [htr]
    rcases List.mem_cons.mp he with rfl | he'
    · have hsome : (processNode cs rf t w e).1.isSome = true := by
        rw [hp]; rfl
      obtain ⟨sc, _, hshape⟩ := processNode_success_trace cs rf t w e hsome
      rw [hshape]
      simp
    · exact List.mem_append_right _ (ih w' hrest he')

theorem processList_trace_ent (cs : CleanupSem υ) (rf : RebuildFn υ)
    (t : Nat) (l : List Nat) (w : SWorld υ) (ev : SEvent)
    (h : ev ∈ (processList cs rf t l w).2) : ev.ent ∈ l := by
  induction l generalizing w with
  | nil => simp [processList] at h
  | cons e' rest ih =>
    cases hp : (processNode cs rf t w e').1 with
    | none =>
      simp only [processList, hp] at h
      rw [processNode_trace_ent cs rf t w e' ev h]
      exact List.mem_cons_self e' rest
    | some w' =>
      simp only [processList, hp] at h
      rcases List.mem_append.mp h with h1 | h1
      · rw [processNode_trace_ent cs rf t w e' ev h1]
        exact List.mem_cons_self e' rest
      · exact List.mem_cons_of_mem e' (ih w' h1)

end SchedulerLemmas

/-- The identity cleanup semantics: every cleanup token is a no-op. -/
def csId : CleanupSem Unit := fun _ w => w

/-- A concrete type-erased rebuild that reports "output changed" and leaves
the world and the fresh scope untouched. -/
def rfc : RebuildFn Unit := fun _ w sc => (true, sc, w)

/-- A world with one tracked entity whose scope registered cleanups 5 and 7
and whose recorded dependency has changed. -/
def wc3 : SWorld Unit :=
  { ents := [0]
    scope := fun x =>
      if x = 0 then some { tick := 0, deps := [0], cleanups := [5, 7] } else none
    hasThunk := fun _ => true
    outputChanged := fun _ => false
    parent := fun _ => none
    rootAdded := fun _ => false
    depVersion := fun _ => 1
    user := () }

/-- C3: the rebuild phase processes exactly the selected entities through the
per-node loop body, and for every selected node that completes, the observed
calls are precisely the node's registered cleanups, in registration order,
each exactly once, followed by — hence strictly before — the adapter's
rebuild call for that node. -/
theorem rebuild_cleanups_in_order_before_rebuild {υ : Type} (cs : CleanupSem υ)
    (rf : RebuildFn υ) (t : Nat) (w : SWorld υ) (e : Nat) :
    rebuild_views cs rf t w = processList cs rf t (changedEntities w) w ∧
      ((processNode cs rf t w e).1.isSome = true →
        ∃ sc, w.getTracked e = some sc ∧
          (processNode cs rf t w e).2 =
            (sc.cleanups.map fun c => SEvent.cleanupRun e c) ++ [SEvent.rebuildCall e]) :=
  ⟨rfl, processNode_success_trace cs rf t w e⟩

/-- C3 witness: on the concrete world, entity 0's cleanups 5 and 7 run in
order and exactly once, before the rebuild call. -/
theorem rebuild_cleanups_in_order_before_rebuild_w :
    ∃ sc, wc3.getTracked 0 = some sc ∧
      (processNode csId rfc 1 wc3 0).2 =
        (sc.cleanups.map fun c => SEvent.cleanupRun 0 c) ++ [SEvent.rebuildCall 0] :=
  (rebuild_cleanups_in_order_before_rebuild csId rfc 1 wc3 0).2 (by rfl)

/-- A world with a tracked entity 0 whose dependency changed (scope tick 0,
version 3) and a tracked entity 1 whose dependency did not (scope tick 5). -/
def wc4 : SWorld Unit :=
  { ents := [0, 1]
    scope := fun x =>
      if x = 0 then some { tick := 0, deps := [0], cleanups := [] }
      else if x = 1 then some { tick := 5, deps := [0], cleanups := [] }
      else none
    hasThunk := fun _ => true
    outputChanged := fun _ => false
    parent := fun _ => none
    rootAdded := fun _ => false
    depVersion := fun _ => 3
    user := () }

/-- A world with one tracked entity whose dependency is unchanged, so the
rebuild phase has nothing to do. -/
def wq4 : SWorld Unit :=
  { ents := [0]
    scope := fun x =>
      if x = 0 then some { tick := 5, deps := [0], cleanups := [] } else none
    hasThunk := fun _ => true
    outputChanged := fun _ => false
    parent := fun _ => none
    rootAdded := fun _ => false
    depVersion := fun _ => 3
    user := () }

/-- C4: in a completed rebuild pass, a tracked entity's adapter rebuild is
invoked iff that entity was selected; selection holds iff the entity's scope
reports a dependency changed; and when no entity's dependencies changed the
pass leaves the world entirely unchanged (so every view's `nodes()` output
is unchanged). -/
theorem rebuild_iff_dependencies_changed {υ : Type} (cs : CleanupSem υ)
    (rf : RebuildFn υ) (t : Nat) (w : SWorld υ) (e : Nat) :
    ((rebuild_views cs rf t w).1.isSome = true →
      (SEvent.rebuildCall e ∈ (rebuild_views cs rf t w).2 ↔ e ∈ changedEntities w)) ∧
      (e ∈ changedEntities w ↔
        e ∈ w.ents ∧ ∃ sc, w.getTracked e = some sc ∧
          sc.dependencies_changed w.depVersion = true) ∧
      (changedEntities w = [] → rebuild_views cs rf t w = (some w, [])) := by
  refine ⟨?_, ?_, ?_⟩
  · intro hs
    constructor
    · intro hmem
      have := processList_trace_ent cs rf t (changedEntities w) w
        (SEvent.rebuildCall e) hmem
      simpa [SEvent.ent] using this
    · intro he
      exact processList_mem_rebuildCall cs rf t (changedEntities w) w e hs he
  · simp only [changedEntities, List.mem_filter]
    constructor
    · rintro ⟨h1, h2⟩
      refine ⟨h1, ?_⟩
      cases ht : w.getTracked e with
      | none => rw [ht] at h2; simp at h2
      | some sc => rw [ht] at h2; exact ⟨sc, rfl, h2⟩
    · rintro ⟨h1, sc, ht, hd⟩
      exact ⟨h1, by rw [ht]; exact hd⟩
  · intro h
    unfold rebuild_views
    rw [h]
    rfl

/-- C4 witness: entity 1's dependencies are unchanged, so the completed pass
does not rebuild it; and on the quiet world the pass changes nothing. -/
theorem rebuild_iff_dependencies_changed_w :
    (SEvent.rebuildCall 1 ∈ (rebuild_views csId rfc 1 wc4).2 ↔
        1 ∈ changedEntities wc4) ∧
      (1 ∈ changedEntities wc4 ↔
        1 ∈ wc4.ents ∧ ∃ sc, wc4.getTracked 1 = some sc ∧
          sc.dependencies_changed wc4.depVersion = true) ∧
      rebuild_views csId rfc 1 wq4 = (some wq4, []) :=
  ⟨(rebuild_iff_dependencies_changed csId rfc 1 wc4 1).1 (by rfl),
    (rebuild_iff_dependencies_changed csId rfc 1 wc4 1).2.1,
    (rebuild_iff_dependencies_changed csId rfc 1 wq4 0).2.2 (by rfl)⟩

/-- A cleanup semantics where token 0 detaches entity 1's tracking scope
(as a cleanup that despawns or tears down entity 1 mid-tick would). -/
def cs5 : CleanupSem Unit := fun c w => if c = 0 then w.setScope 1 none else w

/-- Two tracked entities, both selected for rebuild; entity 0's cleanup
token 0 detaches entity 1's scope before entity 1 is processed. -/
def w5 : SWorld Unit :=
  { ents := [0, 1]
    scope := fun x =>
      if x = 0 then some { tick := 0, deps := [0], cleanups := [0] }
      else if x = 1 then some { tick := 0, deps := [0], cleanups := [] }
      else none
    hasThunk := fun _ => true
    outputChanged := fun _ => false
    parent := fun _ => none
    rootAdded := fun _ => false
    depVersion := fun _ => 1
    user := () }

/-- `w5` after entity 1's scope has been detached. -/
def w5b : SWorld Unit := w5.setScope 1 none

/-- C5 counterexample: on `w5` the rebuild pass is aborted — the scheduler's
`unwrap` on the detached node's lookup panics (`none`), so the in-flight
pass does not complete, contradicting "the in-flight rebuild pass is not
aborted and no hard error is raised for that node". -/
theorem rebuild_detached_mid_tick_cex :
    (rebuild_views cs5 rfc 1 w5).1 = none := by rfl

/-- C5 as amended: the adapter-level lookups degrade gracefully (a missing
`ViewStateCell` makes the adapter rebuild return `false`, see the
missing-data theorem), but the rebuild phase's own scheduler lookups do
not — if a selected node's `TrackingScope`/`ViewThunk` is detached (or the
node despawned) before its turn, the `unwrap`ped lookup panics and the
remaining selected nodes are never processed. -/
theorem rebuild_detached_mid_tick_panics {υ : Type} (cs : CleanupSem υ)
    (rf : RebuildFn υ) (t : Nat) (w : SWorld υ) (e : Nat)
    (h : w.getTracked e = none) :
    processNode cs rf t w e = (none, []) ∧
      ∀ rest, processList cs rf t (e :: rest) w = (none, []) := by
  constructor
  · simp [processNode, h]
  · intro rest
    simp [processList, processNode, h]

/-- C5 witness: with entity 1's scope detached, processing it panics at once
and the rest of the selected list is never reached. -/
theorem rebuild_detached_mid_tick_panics_w :
    processNode cs5 rfc 1 w5b 1 = (none, []) ∧
      processList cs5 rfc 1 [1, 0] w5b = (none, []) :=
  ⟨(rebuild_detached_mid_tick_panics cs5 rfc 1 w5b 1 rfl).1,
    (rebuild_detached_mid_tick_panics cs5 rfc 1 w5b 1 rfl).2 [0]⟩

section ReattachLemmas

variable {υ : Type}

theorem pushSet_mem (q : List Nat) (y p : Nat) :
    p ∈ pushSet q y ↔ p ∈ q ∨ p = y := by
  unfold pushSet
  split <;> rename_i hc
  · have hy : y ∈ q := by simpa using hc
    constructor
    · exact Or.inl
    · rintro (h | rfl)
      · exact h
      · exact hy
  · simp

theorem pushSet_nodup (q : List Nat) (y : Nat) (h : q.Nodup) :
    (pushSet q y).Nodup := by
  unfold pushSet
  split <;> rename_i hc
  · exact h
  · have hy : y ∉ q := by simpa using hc
    simp [List.nodup_append, h, hy]

theorem seed_foldl_mem (w : SWorld υ) (l : List Nat) (acc : List Nat) (p : Nat) :
    (p ∈ l.foldl
        (fun q e =>
          match w.parent e with
          | some q' => pushSet q q'
          | none => q)
        acc) ↔
      p ∈ acc ∨ ∃ x ∈ l, w.parent x = some p := by
  induction l generalizing acc with
  | nil => simp
  | cons e rest ih =>
    simp only [List.foldl_cons]
    cases hp : w.parent e with
    | none =>
      rw [ih]
      constructor
      · rintro (h | ⟨x, hx, hxp⟩)
        · exact Or.inl h
        · exact Or.inr ⟨x, List.mem_cons_of_mem e hx, hxp⟩
      · rintro (h | ⟨x, hx, hxp⟩)
        · exact Or.inl h
        · rcases List.mem_cons.mp hx with rfl | hx'
          · rw [hp] at hxp; cases hxp
          · exact Or.inr ⟨x, hx', hxp⟩
    | some q' =>
      rw [ih]
      constructor
      · rintro (h | ⟨x, hx, hxp⟩)
        · rcases (pushSet_mem acc q' p).mp h with h' | rfl
          · exact Or.inl h'
          · exact Or.inr ⟨e, List.mem_cons_self e rest, hp⟩
        · exact Or.inr ⟨x, List.mem_cons_of_mem e hx, hxp⟩
      · rintro (h | ⟨x, hx, hxp⟩)
        · exact Or.inl ((pushSet_mem acc q' p).mpr (Or.inl h))
        · rcases List.mem_cons.mp hx with rfl | hx'
          · rw [hp] at hxp
            exact Or.inl ((pushSet_mem acc q' p).mpr
              (Or.inr (Option.some_injective _ hxp).symm))
          · exact Or.inr ⟨x, hx', hxp⟩

theorem seed_foldl_nodup (w : SWorld υ) (l : List Nat) (acc : List Nat)
    (h : acc.Nodup) :
    (l.foldl
        (fun q e =>
          match w.parent e with
          | some q' => pushSet q q'
          | none => q)
        acc).Nodup := by
  induction l generalizing acc with
  | nil => exact h
  | cons e rest ih =>
    simp only [List.foldl_cons]
    cases hp : w.parent e with
    | none => simp only [hp]; exact ih acc h
    | some q' => simp only [hp]; exact ih _ (pushSet_nodup acc q' h)

theorem clear_foldl_outputChanged (l : List Nat) (w : SWorld υ) (e : Nat) :
    (l.foldl (fun a x => a.setOutputChanged x false) w).outputChanged e =
      if e ∈ l then false else w.outputChanged e := by
  induction l generalizing w with
  | nil => simp
  | cons x rest ih =>
    simp only [List.foldl_cons, ih, List.mem_cons]
    by_cases h1 : e ∈ rest
    · simp [h1]
    · by_cases h2 : e = x <;> simp [SWorld.setOutputChanged, h1, h2]

end ReattachLemmas

/-- C6: the reattach phase (i) runs the work loop on a work set seeded from
the marked entities' parents with all marks already cleared, (ii) seeds that
set with exactly the parents of the `OutputChanged`-marked entities,
(iii) clears every mark before processing, (iv) keeps the work set
duplicate-free (a node is never pending twice), and (v) for a popped node
with a thunk, the world advances by the adapter's `attach_children` call and
that node's parent joins the set iff the call returned `true` (or the parent
was already pending). -/
theorem reattach_workset_protocol {υ : Type} (af : AttachFn υ) (fuel : Nat)
    (w : SWorld υ) (e p : Nat) (rest : List Nat) :
    (reattach_children af fuel w = reattachLoop af fuel (seedQueue w) (clearMarks w)) ∧
      (p ∈ seedQueue w ↔
        ∃ x, x ∈ w.ents ∧ w.outputChanged x = true ∧ w.parent x = some p) ∧
      (e ∈ w.ents → (clearMarks w).outputChanged e = false) ∧
      (seedQueue w).Nodup ∧
      ((e :: rest).Nodup → ((reattachStep af w e rest).2).Nodup) ∧
      ((w.ents.contains e && w.hasThunk e) = true →
        (reattachStep af w e rest).1 = (af e w).2 ∧
          ∀ q, ((af e w).2).parent e = some q →
            (q ∈ (reattachStep af w e rest).2 ↔ (af e w).1 = true ∨ q ∈ rest)) := by
  refine ⟨rfl, ?_, ?_, ?_, ?_, ?_⟩
  · rw [seedQueue, seed_foldl_mem]
    simp only [List.not_mem_nil, false_or, markedViews, List.mem_filter]
    constructor
    · rintro ⟨x, ⟨hx, ho⟩, hp⟩
      exact ⟨x, hx, ho, hp⟩
    · rintro ⟨x, hx, ho, hp⟩
      exact ⟨x, ⟨hx, ho⟩, hp⟩
  · intro he
    rw [clearMarks, clear_foldl_outputChanged]
    split <;> rename_i hm
    · rfl
    · cases ho : w.outputChanged e with
      | false => rfl
      | true => exact absurd (List.mem_filter.mpr ⟨he, ho⟩) hm
  · exact seed_foldl_nodup w (markedViews w) [] List.nodup_nil
  · intro hnd
    have hrest : rest.Nodup := (List.nodup_cons.mp hnd).2
    unfold reattachStep
    split
    · split
      · split
        · exact pushSet_nodup _ _ hrest
        · exact hrest
      · exact hrest
    · exact hrest
  · intro hc
    unfold reattachStep
    rw [if_pos hc]
    refine ⟨?_, ?_⟩
    · split
      · split <;> rfl
      · rfl
    · intro q hq
      cases hb : (af e w).1 with
      | true => simp [hq, pushSet_mem]
      | false => simp

/-- A concrete attach semantics: only entity 1 reports that its own output
changed when re-attaching; the world is left untouched. -/
def af6 : AttachFn Unit := fun e w => (decide (e = 1), w)

/-- A three-entity chain 2 → 1 → 0 with entity 2 marked `OutputChanged`. -/
def w6 : SWorld Unit :=
  { ents := [0, 1, 2]
    scope := fun _ => none
    hasThunk := fun _ => true
    outputChanged := fun x => decide (x = 2)
    parent := fun x => if x = 1 then some 0 else if x = 2 then some 1 else none
    rootAdded := fun _ => false
    depVersion := fun _ => 0
    user := () }

/-- C6 witness: on the chain, the seed set holds exactly entity 2's parent,
the mark on entity 2 is cleared before the loop, the seed set is
duplicate-free, and popping entity 1 (whose attach reports `true`) enqueues
its parent 0. -/
theorem reattach_workset_protocol_w :
    (1 ∈ seedQueue w6 ↔
        ∃ x, x ∈ w6.ents ∧ w6.outputChanged x = true ∧ w6.parent x = some 1) ∧
      (clearMarks w6).outputChanged 2 = false ∧
      (seedQueue w6).Nodup ∧
      (reattachStep af6 w6 1 []).1 = (af6 1 w6).2 ∧
      (0 ∈ (reattachStep af6 w6 1 []).2 ↔ (af6 1 w6).1 = true ∨ 0 ∈ ([] : List Nat)) :=
  ⟨(reattach_workset_protocol af6 0 w6 2 1 []).2.1,
    (reattach_workset_protocol af6 0 w6 2 1 []).2.2.1 (by decide),
    (reattach_workset_protocol af6 0 w6 2 1 []).2.2.2.1,
    ((reattach_workset_protocol af6 0 w6 1 1 []).2.2.2.2.2 (by rfl)).1,
    ((reattach_workset_protocol af6 0 w6 1 1 []).2.2.2.2.2 (by rfl)).2 0 (by rfl)⟩

section TerminationLemmas

variable {υ : Type}

theorem reattachStep_parent (af : AttachFn υ) (w : SWorld υ) (e : Nat)
    (rest : List Nat) (haf : ∀ e' w', ((af e' w').2).parent = w'.parent) :
    ((reattachStep af w e rest).1).parent = w.parent := by
  unfold reattachStep
  split
  · split
    · split <;> exact haf e w
    · exact haf e w
  · rfl

theorem measureSum_cons (μ : Nat → Nat) (e : Nat) (q : List Nat) :
    measureSum μ (e :: q) = μ e + 1 + measureSum μ q := by
  simp [measureSum]

theorem measureSum_pushSet (μ : Nat → Nat) (q : List Nat) (p : Nat) :
    measureSum μ (pushSet q p) ≤ measureSum μ q + (μ p + 1) := by
  unfold pushSet
  split
  · exact Nat.le_add_right _ _
  · simp [measureSum]

theorem reattachStep_measure (af : AttachFn υ) (μ : Nat → Nat) (w : SWorld υ)
    (e : Nat) (rest : List Nat)
    (haf : ∀ e' w', ((af e' w').2).parent = w'.parent)
    (hμ : ∀ e' p, w.parent e' = some p → μ p < μ e') :
    measureSum μ (reattachStep af w e rest).2 < measureSum μ (e :: rest) := by
  unfold reattachStep
  split
  · split
    · cases hp : (af e w).2.parent e with
      | none => simp [measureSum_cons]
      | some p =>
        have h1 : μ p < μ e := hμ e p (by rw [← haf e w]; exact hp)
        have h2 := measureSum_pushSet μ rest p
        simp only [measureSum_cons]
        omega
    · simp [measureSum_cons]
  · simp [measureSum_cons]

theorem reattachLoop_isSome (af : AttachFn υ) (μ : Nat → Nat)
    (haf : ∀ e' w', ((af e' w').2).parent = w'.parent) :
    ∀ (fuel : Nat) (q : List Nat) (w : SWorld υ),
      (∀ e p, w.parent e = some p → μ p < μ e) →
      measureSum μ q ≤ fuel →
      (reattachLoop af fuel q w).isSome = true := by
  intro fuel
  induction fuel with
  | zero =>
    intro q w _ hle
    cases q with
    | nil => rfl
    | cons e rest =>
      rw [measureSum_cons] at hle
      omega
  | succ fuel ih =>
    intro q w hμ hle
    cases q with
    | nil => rfl
    | cons e rest =>
      show (reattachLoop af fuel (reattachStep af w e rest).2
        (reattachStep af w e rest).1).isSome = true
      apply ih
      · intro e' p hp
        rw [reattachStep_parent af w e rest haf] at hp
        exact hμ e' p hp
      · have := reattachStep_measure af μ w e rest haf hμ
        rw [measureSum_cons] at hle this
        omega

theorem clear_foldl_parent (l : List Nat) (w : SWorld υ) :
    (l.foldl (fun a x => a.setOutputChanged x false) w).parent = w.parent := by
  induction l generalizing w with
  | nil => rfl
  | cons x rest ih => exact ih (w.setOutputChanged x false)

theorem clearMarks_parent (w : SWorld υ) : (clearMarks w).parent = w.parent :=
  clear_foldl_parent (markedViews w) w

end TerminationLemmas

/-- C7: on a finite acyclic hierarchy — witnessed by a depth measure `μ`
that strictly decreases from child to parent, and with `attach_children`
leaving the parent links unchanged — the reattach phase's upward loop
terminates: any fuel at least the seed set's total measure suffices, even
when every ancestor including the root keeps reporting "changed". -/
theorem reattach_phase_terminates {υ : Type} (af : AttachFn υ) (μ : Nat → Nat)
    (fuel : Nat) (w : SWorld υ)
    (haf : ∀ e' w', ((af e' w').2).parent = w'.parent)
    (hμ : ∀ e p, w.parent e = some p → μ p < μ e)
    (hfuel : measureSum μ (seedQueue w) ≤ fuel) :
    (reattach_children af fuel w).isSome = true := by
  unfold reattach_children
  apply reattachLoop_isSome af μ haf fuel (seedQueue w) (clearMarks w) ?_ hfuel
  intro e p hp
  rw [clearMarks_parent] at hp
  exact hμ e p hp

/-- An attach semantics where every entity — the root included — always
reports "changed". -/
def af7 : AttachFn Unit := fun _ w => (true, w)

/-- The chain 3 → 2 → 1 → 0 with the leaf marked `OutputChanged`. -/
def w7 : SWorld Unit :=
  { ents := [0, 1, 2, 3]
    scope := fun _ => none
    hasThunk := fun _ => true
    outputChanged := fun x => decide (x = 3)
    parent := fun x =>
      if x = 1 then some 0 else if x = 2 then some 1 else if x = 3 then some 2 else none
    rootAdded := fun _ => false
    depVersion := fun _ => 0
    user := () }

/-- C7 witness: on the four-entity chain, with every `attach_children`
reporting "changed", the reattach phase still drains its work set within
the depth-bounded fuel. -/
theorem reattach_phase_terminates_w :
    (reattach_children af7 8 w7).isSome = true :=
  reattach_phase_terminates af7 (fun x => x) 8 w7 (fun _ _ => rfl)
    (by
      intro e p h
      simp only [w7] at h
      split_ifs at h with h1 h2 h3 <;> simp_all <;> omega)
    (by decide)

theorem buildList_outputChanged {υ : Type} (rf : RebuildFn υ) (tick : Nat)
    (l : List Nat) (w : SWorld υ)
    (hrf : ∀ e w' sc, ((rf e w' sc).2.2).outputChanged = w'.outputChanged) :
    (buildList rf tick l w).outputChanged = w.outputChanged := by
  induction l generalizing w with
  | nil => rfl
  | cons e rest ih =>
    unfold buildList
    split
    · rw [ih]
      exact hrf e w (TrackingScope.new tick)
    · exact ih w

/-- C10: the build phase never sets the `OutputChanged` marker — the flag
returned by the root's first rebuild is discarded — so as long as the
adapter rebuild itself leaves the markers alone, `build_views` leaves every
marker as it was; in particular, starting from a tick with no markers, a
freshly built root seeds no reattach work at all. -/
theorem build_phase_never_marks {υ : Type} (rf : RebuildFn υ) (tick : Nat)
    (w : SWorld υ)
    (hrf : ∀ e w' sc, ((rf e w' sc).2.2).outputChanged = w'.outputChanged) :
    (build_views rf tick w).outputChanged = w.outputChanged ∧
      ((∀ e, w.outputChanged e = false) → seedQueue (build_views rf tick w) = []) := by
  have h1 : (build_views rf tick w).outputChanged = w.outputChanged :=
    buildList_outputChanged rf tick _ w hrf
  refine ⟨h1, ?_⟩
  intro hall
  have hm : markedViews (build_views rf tick w) = [] := by
    refine List.filter_eq_nil_iff.mpr ?_
    intro a _
    simp [h1, hall a]
  unfold seedQueue
  rw [hm]
  rfl

/-- A world with a freshly added root entity 0 (thunk present, no markers). -/
def w10 : SWorld Unit :=
  { ents := [0]
    scope := fun _ => none
    hasThunk := fun _ => true
    outputChanged := fun _ => false
    parent := fun _ => none
    rootAdded := fun x => decide (x = 0)
    depVersion := fun _ => 0
    user := () }

/-- C10 witness: building the fresh root with an adapter rebuild that
reports "changed" (`rfc` returns `true`) still marks nothing and seeds no
reattach work. -/
theorem build_phase_never_marks_w :
    (build_views rfc 5 w10).outputChanged = w10.outputChanged ∧
      seedQueue (build_views rfc 5 w10) = [] :=
  ⟨(build_phase_never_marks rfc 5 w10 (fun _ _ _ => rfl)).1,
    (build_phase_never_marks rfc 5 w10 (fun _ _ _ => rfl)).2 (fun _ => rfl)⟩
